import Mathlib

set_option autoImplicit false

/-!
Shallow embedding of `main.py` (an interactive chat client with a thought
visualizer and a science-keyword scorer), together with theorems settling
the specification claims about it.

Modelling conventions:
* Python floats (timestamps, scores) are modelled as rationals `ℚ`.
* The `networkx.DiGraph` held by `ThoughtVisualizer` stores nodes keyed by
  timestamp with attribute dictionaries; it is modelled as an association
  list of timestamp/attribute pairs plus a list of directed edges.
* The `collections.deque(maxlen=10)` is modelled as a `List ℚ` that keeps
  only its last 10 elements on append.
* Fallible Python code (a dictionary access that can raise `KeyError`, a
  division that can raise `ZeroDivisionError`, the remote model call) is
  modelled with `Option`/`Except`.
-/

/-- Attribute dictionary of a node of `thought_graph`.  `add_thought` stores
the keys `thought` and `category`; `response_time` is carried as an `Option`
because `_display_session_stats` reads it, although no code path ever sets
it. -/
structure ThoughtNode where
  thought : String
  category : String
  response_time : Option ℚ
deriving DecidableEq, Repr

/-- State of `ThoughtVisualizer`: the node list and edge list of the
`networkx.DiGraph` `thought_graph`, and the deque `thought_queue`. -/
structure ThoughtVisualizer where
  graphNodes : List (ℚ × ThoughtNode)
  graphEdges : List (ℚ × ℚ)
  thought_queue : List ℚ
deriving DecidableEq, Repr

/-- `ThoughtVisualizer.__init__`: empty graph, empty deque. -/
def ThoughtVisualizer.init : ThoughtVisualizer := ⟨[], [], []⟩

/-- `networkx.DiGraph.add_node`: if the key is already a node its attribute
dictionary is overwritten (here `add_thought` always supplies both
attributes), otherwise the node is appended. -/
def addNodeAssoc (ns : List (ℚ × ThoughtNode)) (k : ℚ) (v : ThoughtNode) :
    List (ℚ × ThoughtNode) :=
  if ns.any (fun p => decide (p.1 = k)) then
    ns.map (fun p => if p.1 = k then (k, v) else p)
  else
    ns ++ [(k, v)]

/-- `networkx.DiGraph.add_edge` restricted to the use in `add_thought`, where
both endpoints are already nodes: adds the directed edge unless it is already
present. -/
def addEdgeList (es : List (ℚ × ℚ)) (u v : ℚ) : List (ℚ × ℚ) :=
  if (u, v) ∈ es then es else es ++ [(u, v)]

/-- The last `n` elements of a list, in order. -/
def takeLast {α : Type} (n : ℕ) (l : List α) : List α :=
  l.drop (l.length - n)

/-- `deque(maxlen=10).append`: append on the right, dropping from the left
so that at most 10 elements remain. -/
def dequeAppend (q : List ℚ) (t : ℚ) : List ℚ :=
  takeLast 10 (q ++ [t])

/-- `ThoughtVisualizer.add_thought`, with the `time.time()` call made an
explicit `timestamp` argument: add the node, add an edge from the last
queued timestamp (if the queue is non-empty), append to the queue. -/
def ThoughtVisualizer.add_thought (tv : ThoughtVisualizer)
    (thought category : String) (timestamp : ℚ) : ThoughtVisualizer :=
  { graphNodes := addNodeAssoc tv.graphNodes timestamp
      { thought := thought, category := category, response_time := none }
    graphEdges :=
      match tv.thought_queue.getLast? with
      | some prev => addEdgeList tv.graphEdges prev timestamp
      | none => tv.graphEdges
    thought_queue := dequeAppend tv.thought_queue timestamp }

/-- Lookup of a node's attribute dictionary, `thought_graph.nodes[node]`;
`none` models the `KeyError` the Python raises for a missing node. -/
def lookupNode : List (ℚ × ThoughtNode) → ℚ → Option ThoughtNode
  | [], _ => none
  | p :: rest, k => if p.1 = k then some p.2 else lookupNode rest k

/-- The line `f"[\x7bcategory\x7d] \x7bthought\x7d"` built for one queued node. -/
def fmtThought (n : ThoughtNode) : String :=
  "[" ++ n.category ++ "] " ++ n.thought

/-- The loop of `generate_visualization` over `thought_queue`, collecting a
formatted line per queued node; `none` models a `KeyError` on a queued
timestamp that is not a graph node. -/
def collectThoughts (ns : List (ℚ × ThoughtNode)) : List ℚ → Option (List String)
  | [] => some []
  | node :: rest =>
    match lookupNode ns node, collectThoughts ns rest with
    | some n, some rest2 => some (fmtThought n :: rest2)
    | _, _ => none

/-- `ThoughtVisualizer.generate_visualization`: the fixed string on an empty
graph, otherwise the queued nodes' lines joined by the arrow separator. -/
def ThoughtVisualizer.generate_visualization (tv : ThoughtVisualizer) :
    Option String :=
  if tv.graphNodes.length = 0 then
    some "No thoughts processed yet."
  else
    (collectThoughts tv.graphNodes tv.thought_queue).map
      (fun visualization => String.intercalate "\n└─> " visualization)

/-- `ScienceAnalyzer.principles`: the four categories with their keyword
lists, in dictionary insertion order. -/
def ScienceAnalyzer.principles : List (String × List String) :=
  [("quantum", ["superposition", "entanglement", "uncertainty"]),
   ("thermo", ["entropy", "energy conservation", "heat transfer"]),
   ("relativity", ["time dilation", "mass-energy", "gravity"]),
   ("biology", ["evolution", "adaptation", "homeostasis"])]

/-- `s.lower()` on the character list of a string. -/
def lowerData (s : String) : List Char :=
  s.data.map Char.toLower

/-- Boolean test that `pat` occurs as a contiguous sublist of the second
argument (Python's `in` operator on strings). -/
def isSubList (pat : List Char) : List Char → Bool
  | [] => pat.isEmpty
  | c :: rest => pat.isPrefixOf (c :: rest) || isSubList pat rest

/-- `principle.lower() in text.lower()`: case-insensitive substring test. -/
def containsSub (text principle : String) : Bool :=
  isSubList (lowerData principle) (lowerData text)

/-- `ScienceAnalyzer.analyze_text`: for each category, the number of its
keywords contained in the text (a Python `sum` of booleans) divided by the
length of the keyword list. -/
def ScienceAnalyzer.analyze_text (text : String) : List (String × ℚ) :=
  ScienceAnalyzer.principles.map (fun cp =>
    (cp.1,
      (((cp.2.map (fun principle => if containsSub text principle then (1 : ℕ) else 0)).sum : ℚ)
        / (cp.2.length : ℚ))))

/-- Number of (possibly overlapping) occurrences of `pat` in `text`: the
number of positions at which `pat` starts.  Used only to state frequency
properties; the source never counts occurrences. -/
def countOccurrences (pat : List Char) : List Char → ℕ
  | [] => if pat.isPrefixOf ([] : List Char) then 1 else 0
  | c :: rest =>
    (if pat.isPrefixOf (c :: rest) then 1 else 0) + countOccurrences pat rest

/-- Worker for `splitWs`, accumulating the current word reversed. -/
def splitWsGo : List Char → List Char → List (List Char)
  | acc, [] => if acc = [] then [] else [acc.reverse]
  | acc, c :: rest =>
    if c.isWhitespace then
      if acc = [] then splitWsGo [] rest else acc.reverse :: splitWsGo [] rest
    else
      splitWsGo (c :: acc) rest

/-- Python `str.split()` with no arguments: maximal runs of non-whitespace
characters, with leading, trailing and repeated whitespace dropped. -/
def splitWs (l : List Char) : List (List Char) :=
  splitWsGo [] l

/-- The dictionary `_analyze_response` returns. -/
structure Analysis where
  science_scores : List (String × ℚ)
  complexity : ℚ
deriving DecidableEq, Repr

/-- `UniversalAgent._analyze_response`: science scores plus
`len(set(response.split())) / len(response.split())`; the `.error` branch
models the `ZeroDivisionError` raised when the response has no words. -/
def UniversalAgent.analyze_response (response : String) : Except String Analysis :=
  let science_scores := ScienceAnalyzer.analyze_text response
  let ws := splitWs response.data
  if ws.length = 0 then
    Except.error "division by zero"
  else
    Except.ok { science_scores := science_scores,
                complexity := ((ws.dedup.length : ℚ) / (ws.length : ℚ)) }

/-- Round to the nearest integer, ties to even, as Python float formatting
rounds. -/
def roundHalfEven (q : ℚ) : ℤ :=
  let f := Rat.floor q
  if q - f < 1 / 2 then f
  else if 1 / 2 < q - f then f + 1
  else if f % 2 = 0 then f else f + 1

/-- Python `f"\x7bx:.2f\x7d"`: the number rendered with two digits after the
decimal point. -/
def formatFloat2 (q : ℚ) : String :=
  let c := roundHalfEven (q * 100)
  let sign := if c < 0 then "-" else ""
  let n := c.natAbs
  sign ++ toString (n / 100) ++ "." ++
    (if n % 100 < 10 then "0" else "") ++ toString (n % 100)

/-- The `ThreadPoolExecutor` object: its construction parameter and the
number of tasks ever submitted to it. -/
structure ExecutorState where
  max_workers : ℕ
  tasks_submitted : ℕ
deriving DecidableEq, Repr

/-- The mutable state of `UniversalAgent` that the claims mention. -/
structure UniversalAgent where
  thought_visualizer : ThoughtVisualizer
  response_history : List String
  executor : ExecutorState
deriving DecidableEq, Repr

/-- `UniversalAgent.__init__` followed by `_initialize_chat` in the
successful case, with the `time.time()` of the initial thought made the
argument `t0`: a fresh visualizer holding the SYSTEM thought, an empty
response history, and a `ThreadPoolExecutor(max_workers=3)` with no work
submitted. -/
def UniversalAgent.mkInit (t0 : ℚ) : UniversalAgent :=
  { thought_visualizer :=
      ThoughtVisualizer.init.add_thought "System initialization complete" "SYSTEM" t0
    response_history := []
    executor := { max_workers := 3, tasks_submitted := 0 } }

/-- `UniversalAgent.process_query`, with the remote call
`self.chat.send_message(query)` made the explicit argument `modelResult`
(`Except.error e` models an exception with message `e`) and the two
`time.time()` calls made the arguments `t1`, `t2`.  Returns the new agent
state and the returned string.  The `try` block adds the INPUT thought,
sends the query, analyzes the response, adds the OUTPUT thought and returns
the response text; the blanket `except` returns the error string instead. -/
def UniversalAgent.process_query (a : UniversalAgent) (query : String)
    (modelResult : Except String String) (t1 t2 : ℚ) :
    UniversalAgent × String :=
  let tv1 := a.thought_visualizer.add_thought ("Query received: " ++ query) "INPUT" t1
  match modelResult with
  | Except.error e =>
    ({ a with thought_visualizer := tv1 }, "Error in processing: " ++ e)
  | Except.ok resp =>
    match UniversalAgent.analyze_response resp with
    | Except.error e =>
      ({ a with thought_visualizer := tv1 }, "Error in processing: " ++ e)
    | Except.ok analysis =>
      let tv2 := tv1.add_thought
        ("Response generated (complexity: " ++ formatFloat2 analysis.complexity ++ ")")
        "OUTPUT" t2
      ({ a with thought_visualizer := tv2 }, resp)

/-- What `_display_session_stats` computes and renders. -/
structure SessionStats where
  totalQueries : ℕ
  responseTimes : List ℚ
  avgResponseTime : Option ℚ
deriving DecidableEq, Repr

/-- `numpy.mean` of a list of rationals; `none` models the `nan` produced on
an empty list. -/
def npMean (l : List ℚ) : Option ℚ :=
  if l.length = 0 then none else some (l.sum / (l.length : ℚ))

/-- `UniversalAgent._display_session_stats`: `num_queries` is the length of
`thought_queue`; the response-time list collects the `response_time`
attribute of every graph node that has one. -/
def UniversalAgent.display_session_stats (a : UniversalAgent) : SessionStats :=
  let num_queries := a.thought_visualizer.thought_queue.length
  let rts := a.thought_visualizer.graphNodes.filterMap (fun p => p.2.response_time)
  { totalQueries := num_queries
    responseTimes := rts
    avgResponseTime := if 0 < num_queries then npMean rts else some 0 }

/-- One call to `add_thought`: its text, category and timestamp. -/
structure Insertion where
  thought : String
  category : String
  timestamp : ℚ
deriving DecidableEq, Repr

/-- The visualizer state after a sequence of `add_thought` calls starting
from a fresh `ThoughtVisualizer`. -/
def runAdds (ins : List Insertion) : ThoughtVisualizer :=
  ins.foldl (fun tv i => tv.add_thought i.thought i.category i.timestamp)
    ThoughtVisualizer.init

/-- The list of consecutive pairs of a list: the edge set of the chain
through its elements in order. -/
def consecPairs (l : List ℚ) : List (ℚ × ℚ) :=
  l.zip l.tail

/-- Non-empty directed paths through an edge list. -/
inductive EdgePath (es : List (ℚ × ℚ)) : ℚ → ℚ → Prop
  | single {u v : ℚ} : (u, v) ∈ es → EdgePath es u v
  | cons {u v w : ℚ} : (u, v) ∈ es → EdgePath es v w → EdgePath es u w

/-- A concrete three-turn insertion sequence with increasing timestamps,
used to witness the universally quantified theorems. -/
def sampleInsertions : List Insertion :=
  [{ thought := "System initialization complete", category := "SYSTEM", timestamp := 1 },
   { thought := "Query received: hi", category := "INPUT", timestamp := 2 },
   { thought := "Response generated (complexity: 1.00)", category := "OUTPUT", timestamp := 3 }]

/-- A concrete twelve-call insertion sequence with increasing timestamps,
long enough to overflow the ten-element deque. -/
def sampleInsertions12 : List Insertion :=
  (List.range 12).map (fun k =>
    { thought := "thought", category := "SYSTEM", timestamp := (k : ℚ) })

/-! ### Helper lemmas -/

theorem sum_indicator_eq_length_filter {α : Type} (l : List α) (p : α → Bool) :
    (l.map (fun a => if p a then (1 : ℕ) else 0)).sum = (l.filter p).length := by
  induction l with
  | nil => rfl
  | cons a l ih =>
    by_cases h : p a <;> simp [List.filter_cons, h, ih, Nat.add_comm]

theorem analyze_text_eq (text : String) :
    ScienceAnalyzer.analyze_text text
      = ScienceAnalyzer.principles.map (fun cp =>
          (cp.1, (((cp.2.filter (fun p => containsSub text p)).length : ℚ)
            / (cp.2.length : ℚ)))) := by
  unfold ScienceAnalyzer.analyze_text
  apply List.map_congr_left
  intro cp _
  rw [sum_indicator_eq_length_filter]

theorem addNodeAssoc_fresh (ns : List (ℚ × ThoughtNode)) (k : ℚ) (v : ThoughtNode)
    (h : ∀ p ∈ ns, p.1 ≠ k) :
    addNodeAssoc ns k v = ns ++ [(k, v)] := by
  unfold addNodeAssoc
  rw [if_neg]
  intro hc
  rw [List.any_eq_true] at hc
  obtain ⟨p, hp, hpk⟩ := hc
  exact h p hp (of_decide_eq_true hpk)

theorem takeLast_length {α : Type} (n : ℕ) (l : List α) :
    (takeLast n l).length = min l.length n := by
  simp [takeLast]
  omega

theorem getLast?_drop_of_lt {α : Type} :
    ∀ (l : List α) (k : ℕ), k < l.length → (l.drop k).getLast? = l.getLast?
  | [], k, h => by simp at h
  | _ :: _, 0, _ => rfl
  | a :: l, k + 1, h => by
    have hk : k < l.length := by simpa using h
    have hl : l ≠ [] := by
      cases l
      · simp at hk
      · simp
    rw [List.drop_succ_cons, getLast?_drop_of_lt l k hk]
    cases l
    · simp at hk
    · simp [List.getLast?_cons_cons]

theorem getLast?_takeLast {α : Type} (l : List α) (n : ℕ) (hn : 0 < n) (hl : l ≠ []) :
    (takeLast n l).getLast? = l.getLast? := by
  apply getLast?_drop_of_lt
  have : 0 < l.length := List.length_pos.mpr hl
  omega

theorem takeLast_takeLast_append {α : Type} (n : ℕ) (q : List α) (t : α) :
    takeLast n (takeLast n q ++ [t]) = takeLast n (q ++ [t]) := by
  rcases Nat.eq_zero_or_pos n with hn0 | hn0
  · subst hn0
    simp [takeLast, List.drop_length]
  rcases le_or_lt q.length n with hle | hlt
  · have : q.length - n = 0 := by omega
    simp [takeLast, this]
  · have h1 : (q.drop (q.length - n)).length = n := by
      rw [List.length_drop]
      omega
    have ha : n + 1 - n ≤ (q.drop (q.length - n)).length := by
      rw [h1]
      omega
    have hb : q.length + 1 - n ≤ q.length := by omega
    simp only [takeLast, List.length_append, List.length_singleton, h1]
    rw [List.drop_append_of_le_length ha, List.drop_append_of_le_length hb,
        List.drop_drop]
    congr 2
    omega

theorem takeLast_map {α β : Type} (f : α → β) (n : ℕ) (l : List α) :
    takeLast n (l.map f) = (takeLast n l).map f := by
  simp [takeLast, List.map_drop]

theorem consecPairs_cons_cons (x y : ℚ) (t : List ℚ) :
    consecPairs (x :: y :: t) = (x, y) :: consecPairs (y :: t) := rfl

theorem consecPairs_append (l : List ℚ) (b a : ℚ) (h : l.getLast? = some b) :
    consecPairs (l ++ [a]) = consecPairs l ++ [(b, a)] := by
  induction l with
  | nil => simp at h
  | cons x l ih =>
    cases l with
    | nil =>
      simp only [List.getLast?_singleton, Option.some.injEq] at h
      subst h
      rfl
    | cons y t =>
      have h2 : (y :: t).getLast? = some b := by
        rwa [List.getLast?_cons_cons] at h
      have ih2 := ih h2
      simp only [List.cons_append, consecPairs_cons_cons]
      rw [← List.cons_append, ih2]

theorem fst_mem_of_mem_consecPairs {l : List ℚ} {u v : ℚ}
    (h : (u, v) ∈ consecPairs l) : u ∈ l :=
  (List.of_mem_zip h).1

theorem snd_mem_tail_of_mem_consecPairs {l : List ℚ} {u v : ℚ}
    (h : (u, v) ∈ consecPairs l) : v ∈ l.tail :=
  (List.of_mem_zip h).2

theorem map_snd_consecPairs (l : List ℚ) :
    (consecPairs l).map Prod.snd = l.tail := by
  apply List.map_snd_zip
  cases l <;> simp

theorem map_fst_consecPairs (l : List ℚ) :
    (consecPairs l).map Prod.fst = l.dropLast := by
  induction l with
  | nil => rfl
  | cons x l ih =>
    cases l with
    | nil => rfl
    | cons y t =>
      rw [consecPairs_cons_cons, List.map_cons, ih]
      rfl

theorem length_filter_le_one_of_nodup {l : List ℚ} (h : l.Nodup) (u : ℚ) :
    (l.filter (fun x => decide (x = u))).length ≤ 1 := by
  induction l with
  | nil => simp
  | cons a l ih =>
    rw [List.filter_cons]
    split
    · rename_i ha
      have hau : a = u := of_decide_eq_true ha
      subst hau
      have hnotin : a ∉ l := (List.nodup_cons.mp h).1
      have : l.filter (fun x => decide (x = a)) = [] := by
        rw [List.filter_eq_nil_iff]
        intro b hb hba
        exact hnotin (of_decide_eq_true hba ▸ hb)
      simp [this]
    · exact ih (List.nodup_cons.mp h).2

theorem length_filter_fst {γ : Type} (es : List (ℚ × γ)) (u : ℚ) :
    (es.filter (fun e => decide (e.1 = u))).length
      = ((es.map Prod.fst).filter (fun x => decide (x = u))).length := by
  rw [List.filter_map]
  simp [Function.comp_def]

theorem length_filter_snd {γ : Type} (es : List (γ × ℚ)) (v : ℚ) :
    (es.filter (fun e => decide (e.2 = v))).length
      = ((es.map Prod.snd).filter (fun x => decide (x = v))).length := by
  rw [List.filter_map]
  simp [Function.comp_def]

theorem edgePath_lt {es : List (ℚ × ℚ)} {u v : ℚ}
    (h : ∀ e ∈ es, e.1 < e.2) (hp : EdgePath es u v) : u < v := by
  induction hp with
  | single hm => exact h _ hm
  | cons hm _ ih => exact lt_trans (h _ hm) ih

theorem lookupNode_eq_some {ns : List (ℚ × ThoughtNode)} {k : ℚ} {v : ThoughtNode}
    (hnd : (ns.map Prod.fst).Nodup) (hm : (k, v) ∈ ns) :
    lookupNode ns k = some v := by
  induction ns with
  | nil => simp at hm
  | cons p rest ih =>
    rw [List.map_cons, List.nodup_cons] at hnd
    rcases List.mem_cons.mp hm with heq | hm2
    · subst heq
      simp [lookupNode]
    · have hkmem : k ∈ rest.map Prod.fst := List.mem_map_of_mem Prod.fst hm2
      have hne : p.1 ≠ k := fun hc => hnd.1 (hc ▸ hkmem)
      simp only [lookupNode, if_neg hne]
      exact ih hnd.2 hm2

theorem collectThoughts_of_lookup {ns : List (ℚ × ThoughtNode)} (q : List Insertion)
    (h : ∀ i ∈ q, lookupNode ns i.timestamp
        = some { thought := i.thought, category := i.category, response_time := none }) :
    collectThoughts ns (q.map Insertion.timestamp)
      = some (q.map (fun i => "[" ++ i.category ++ "] " ++ i.thought)) := by
  induction q with
  | nil => rfl
  | cons i q ih =>
    have hi := h i (List.mem_cons_self i q)
    have hrest := ih (fun j hj => h j (List.mem_cons_of_mem i hj))
    simp only [List.map_cons, collectThoughts, hi, hrest, fmtThought]

theorem add_thought_graphNodes (tv : ThoughtVisualizer) (th cat : String) (t : ℚ) :
    (tv.add_thought th cat t).graphNodes
      = addNodeAssoc tv.graphNodes t { thought := th, category := cat, response_time := none } :=
  rfl

theorem add_thought_graphEdges (tv : ThoughtVisualizer) (th cat : String) (t : ℚ) :
    (tv.add_thought th cat t).graphEdges
      = (match tv.thought_queue.getLast? with
         | some prev => addEdgeList tv.graphEdges prev t
         | none => tv.graphEdges) :=
  rfl

theorem add_thought_thought_queue (tv : ThoughtVisualizer) (th cat : String) (t : ℚ) :
    (tv.add_thought th cat t).thought_queue = dequeAppend tv.thought_queue t :=
  rfl

theorem runAdds_spec (ins : List Insertion)
    (h : (ins.map Insertion.timestamp).Pairwise (fun a b => a < b)) :
    (runAdds ins).graphNodes
        = ins.map (fun i => (i.timestamp,
            { thought := i.thought, category := i.category, response_time := none }))
    ∧ (runAdds ins).graphEdges = consecPairs (ins.map Insertion.timestamp)
    ∧ (runAdds ins).thought_queue = takeLast 10 (ins.map Insertion.timestamp) := by
  induction ins using List.reverseRecOn with
  | nil => exact ⟨rfl, rfl, rfl⟩
  | append_singleton l a ih =>
    rw [List.map_append] at h
    have hpl : (l.map Insertion.timestamp).Pairwise (fun a b => a < b) :=
      (List.pairwise_append.mp h).1
    have hlt : ∀ x ∈ l.map Insertion.timestamp, x < a.timestamp := by
      intro x hx
      exact (List.pairwise_append.mp h).2.2 x hx a.timestamp (by simp)
    obtain ⟨hn, he, hq⟩ := ih hpl
    have hstep : runAdds (l ++ [a])
        = (runAdds l).add_thought a.thought a.category a.timestamp := by
      simp [runAdds, List.foldl_append]
    have hfresh : ∀ p ∈ (runAdds l).graphNodes, p.1 ≠ a.timestamp := by
      intro p hp
      rw [hn] at hp
      obtain ⟨i, hi, rfl⟩ := List.mem_map.mp hp
      exact ne_of_lt (hlt i.timestamp (List.mem_map_of_mem Insertion.timestamp hi))
    refine ⟨?_, ?_, ?_⟩
    · rw [hstep, add_thought_graphNodes, addNodeAssoc_fresh _ _ _ hfresh, hn,
        List.map_append]
      rfl
    · rw [hstep, add_thought_graphEdges, he, hq, List.map_append]
      rcases hgl : (l.map Insertion.timestamp).getLast? with _ | b
      · have hnil : l.map Insertion.timestamp = [] := by
          rwa [List.getLast?_eq_none_iff] at hgl
        rw [hnil]
        rfl
      · have hne : l.map Insertion.timestamp ≠ [] := by
          intro hc
          rw [hc] at hgl
          simp at hgl
        have hql : (takeLast 10 (l.map Insertion.timestamp)).getLast? = some b := by
          rw [getLast?_takeLast _ 10 (by norm_num) hne]
          exact hgl
        rw [hql]
        dsimp only
        have hnotin : (b, a.timestamp) ∉ consecPairs (l.map Insertion.timestamp) := by
          intro hc
          have hsnd := snd_mem_tail_of_mem_consecPairs hc
          have hmem : a.timestamp ∈ l.map Insertion.timestamp :=
            List.mem_of_mem_tail hsnd
          exact lt_irrefl _ (hlt _ hmem)
        unfold addEdgeList
        rw [if_neg hnotin]
        have := consecPairs_append (l.map Insertion.timestamp) b a.timestamp hgl
        simp only [List.map_cons, List.map_nil] at this ⊢
        rw [this]
    · rw [hstep, add_thought_thought_queue, hq, List.map_append]
      simp only [List.map_cons, List.map_nil]
      unfold dequeAppend
      exact takeLast_takeLast_append 10 _ _

theorem splitWsGo_eq_nil_iff (l : List Char) :
    ∀ acc : List Char,
      (splitWsGo acc l = [] ↔ acc = [] ∧ ∀ c ∈ l, c.isWhitespace) := by
  induction l with
  | nil =>
    intro acc
    cases acc <;> simp [splitWsGo]
  | cons c rest ih =>
    intro acc
    by_cases hc : c.isWhitespace
    · by_cases hacc : acc = []
      · subst hacc
        simp only [splitWsGo, hc, if_true, if_pos rfl]
        rw [ih []]
        simp [hc]
      · simp only [splitWsGo, hc, if_true, if_neg hacc]
        simp [hacc]
    · have hstep : splitWsGo acc (c :: rest) = splitWsGo (c :: acc) rest := by
        simp [splitWsGo, hc]
      rw [hstep, ih (c :: acc)]
      simp [hc]

theorem splitWs_eq_nil_iff (l : List Char) :
    splitWs l = [] ↔ ∀ c ∈ l, c.isWhitespace := by
  rw [splitWs, splitWsGo_eq_nil_iff l []]
  simp

theorem addNodeAssoc_length_fresh (ns : List (ℚ × ThoughtNode)) (k : ℚ)
    (v : ThoughtNode) (h : ∀ p ∈ ns, p.1 ≠ k) :
    (addNodeAssoc ns k v).length = ns.length + 1 := by
  rw [addNodeAssoc_fresh ns k v h]
  simp

theorem add_thought_rt_none (tv : ThoughtVisualizer)
    (h : ∀ p ∈ tv.graphNodes, p.2.response_time = none)
    (th cat : String) (t : ℚ) :
    ∀ p ∈ (tv.add_thought th cat t).graphNodes, p.2.response_time = none := by
  intro p hp
  rw [add_thought_graphNodes] at hp
  unfold addNodeAssoc at hp
  split at hp
  · obtain ⟨q, hq, hpq⟩ := List.mem_map.mp hp
    by_cases hqk : q.1 = t
    · rw [if_pos hqk] at hpq
      rw [← hpq]
    · rw [if_neg hqk] at hpq
      exact hpq ▸ h q hq
  · rcases List.mem_append.mp hp with hold | hnew
    · exact h p hold
    · simp only [List.mem_singleton] at hnew
      rw [hnew]

theorem foldAdds_rt_none (ins : List Insertion) :
    ∀ tv : ThoughtVisualizer, (∀ p ∈ tv.graphNodes, p.2.response_time = none) →
      ∀ p ∈ (ins.foldl
          (fun tv i => tv.add_thought i.thought i.category i.timestamp) tv).graphNodes,
        p.2.response_time = none := by
  induction ins with
  | nil => intro tv h; exact h
  | cons i ins ih =>
    intro tv h
    exact ih _ (add_thought_rt_none tv h i.thought i.category i.timestamp)

theorem runAdds_rt_none (ins : List Insertion) :
    ∀ p ∈ (runAdds ins).graphNodes, p.2.response_time = none :=
  foldAdds_rt_none ins ThoughtVisualizer.init
    (by intro p hp; simp [ThoughtVisualizer.init] at hp)

theorem filterMap_rt_eq_nil {ns : List (ℚ × ThoughtNode)}
    (h : ∀ p ∈ ns, p.2.response_time = none) :
    ns.filterMap (fun p => p.2.response_time) = [] := by
  rw [List.filterMap_eq_nil_iff]
  intro p hp
  rw [h p hp]

theorem div3_mem (n : ℕ) (h : n ≤ 3) :
    ((n : ℚ) / 3) ∈ [(0 : ℚ), 1 / 3, 2 / 3, 1] := by
  interval_cases n <;> norm_num

theorem nodup_of_pairwise_lt {l : List ℚ} (h : l.Pairwise (fun a b => a < b)) :
    l.Nodup :=
  h.imp ne_of_lt

theorem generate_visualization_of_runAdds (ins : List Insertion)
    (h : (ins.map Insertion.timestamp).Pairwise (fun a b => a < b))
    (hne : ins ≠ []) :
    (runAdds ins).generate_visualization
      = some (String.intercalate "\n└─> "
          ((takeLast 10 ins).map (fun i => "[" ++ i.category ++ "] " ++ i.thought))) := by
  obtain ⟨hn, he, hq⟩ := runAdds_spec ins h
  unfold ThoughtVisualizer.generate_visualization
  rw [hn, hq]
  have hlen : ¬ ((ins.map (fun i : Insertion => (i.timestamp,
      ({ thought := i.thought, category := i.category,
         response_time := none } : ThoughtNode)))).length = 0) := by
    simpa using hne
  rw [if_neg hlen, takeLast_map]
  have hnd : ((ins.map (fun i : Insertion => (i.timestamp,
      ({ thought := i.thought, category := i.category,
         response_time := none } : ThoughtNode)))).map Prod.fst).Nodup := by
    rw [List.map_map]
    exact nodup_of_pairwise_lt h
  have hlook : ∀ i ∈ takeLast 10 ins,
      lookupNode (ins.map (fun i : Insertion => (i.timestamp,
        ({ thought := i.thought, category := i.category,
           response_time := none } : ThoughtNode)))) i.timestamp
        = some { thought := i.thought, category := i.category, response_time := none } := by
    intro i hi
    apply lookupNode_eq_some hnd
    have hmem : i ∈ ins := List.drop_subset _ ins hi
    exact List.mem_map_of_mem _ hmem
  rw [collectThoughts_of_lookup (takeLast 10 ins) hlook]
  rfl

theorem score_mem (text : String) (kws : List String) (h3 : kws.length = 3) :
    (((kws.filter (fun p => containsSub text p)).length : ℚ) / (kws.length : ℚ))
      ∈ [(0 : ℚ), 1 / 3, 2 / 3, 1] := by
  have hle : (kws.filter (fun p => containsSub text p)).length ≤ 3 :=
    h3 ▸ List.length_filter_le _ _
  rw [h3]
  simpa using div3_mem _ hle

/-! ### Claim theorems -/

/-- C1: for every input text, `ScienceAnalyzer.analyze_text` returns a
dictionary whose keys are exactly the four categories `quantum`, `thermo`,
`relativity`, `biology`, whose value for each category equals the number of
that category's three keywords that occur case-insensitively as substrings
of the text divided by 3, so each score lies among 0, 1/3, 2/3, 1. -/
theorem C1_analyze_text_keys_and_scores (text : String) :
    (ScienceAnalyzer.analyze_text text).map Prod.fst
        = ["quantum", "thermo", "relativity", "biology"]
    ∧ (∀ cat kws, (cat, kws) ∈ ScienceAnalyzer.principles →
        (ScienceAnalyzer.analyze_text text).lookup cat
          = some (((kws.filter (fun p => containsSub text p)).length : ℚ) / 3))
    ∧ (∀ p ∈ ScienceAnalyzer.analyze_text text, p.2 ∈ [(0 : ℚ), 1 / 3, 2 / 3, 1]) := by
  refine ⟨?_, ?_, ?_⟩
  · simp [ScienceAnalyzer.analyze_text, ScienceAnalyzer.principles]
  · intro cat kws hmem
    fin_cases hmem <;>
      (rw [analyze_text_eq]; simp [ScienceAnalyzer.principles, List.lookup])
  · intro p hp
    rw [analyze_text_eq] at hp
    obtain ⟨cp, hcp, rfl⟩ := List.mem_map.mp hp
    fin_cases hcp <;> exact score_mem text _ (by norm_num)

/-- Witness for C1 at a concrete input: the `thermo` score of the text
`entropy` is 1/3. -/
theorem C1_witness :
    (("thermo", ["entropy", "energy conservation", "heat transfer"])
        ∈ ScienceAnalyzer.principles)
    ∧ (ScienceAnalyzer.analyze_text "entropy").lookup "thermo"
        = some (((["entropy", "energy conservation", "heat transfer"].filter
            (fun p => containsSub "entropy" p)).length : ℚ) / 3) :=
  ⟨by decide, (C1_analyze_text_keys_and_scores "entropy").2.1 _ _ (by decide)⟩

/-- C2 counterexample: the text `entropy entropy` contains the thermo term
`entropy` twice and the text `entropy` contains it once, yet both texts get
exactly the same thermo score (the scorer tests containment, not
frequency), refuting the claimed strict increase. -/
theorem C2_counterexample :
    countOccurrences (lowerData "entropy") (lowerData "entropy entropy") = 2
    ∧ countOccurrences (lowerData "entropy") (lowerData "entropy") = 1
    ∧ (ScienceAnalyzer.analyze_text "entropy entropy").lookup "thermo"
        = (ScienceAnalyzer.analyze_text "entropy").lookup "thermo"
    ∧ ¬ (((ScienceAnalyzer.analyze_text "entropy entropy").lookup "thermo").getD 0
          > ((ScienceAnalyzer.analyze_text "entropy").lookup "thermo").getD 0) := by
  refine ⟨by decide, by decide, ?_, ?_⟩
  · simp +decide [ScienceAnalyzer.analyze_text, ScienceAnalyzer.principles, List.lookup]
  · simp +decide [ScienceAnalyzer.analyze_text, ScienceAnalyzer.principles, List.lookup]

/-- C2 (amended): `analyze_text` scores reflect only which of a category's
terms are contained in the text at least once, not how often they occur:
two texts in which every keyword occurs-or-not identically get identical
scores, so a text containing a term more than once scores the same as a
text containing it exactly once, all else equal. -/
theorem C2_amended_presence_only (t1 t2 : String)
    (h : ∀ cp ∈ ScienceAnalyzer.principles,
        ∀ p ∈ cp.2, containsSub t1 p = containsSub t2 p) :
    ScienceAnalyzer.analyze_text t1 = ScienceAnalyzer.analyze_text t2 := by
  unfold ScienceAnalyzer.analyze_text
  apply List.map_congr_left
  intro cp hcp
  have hcp2 : ∀ p ∈ cp.2, containsSub t1 p = containsSub t2 p := h cp hcp
  have hmaps : cp.2.map (fun p => if containsSub t1 p then (1 : ℕ) else 0)
      = cp.2.map (fun p => if containsSub t2 p then (1 : ℕ) else 0) :=
    List.map_congr_left (fun p hp => by rw [hcp2 p hp])
  rw [hmaps]

/-- Witness for the amended C2: `entropy entropy` and `entropy` agree on
containment of every keyword and get identical score dictionaries. -/
theorem C2_witness :
    (∀ cp ∈ ScienceAnalyzer.principles,
        ∀ p ∈ cp.2, containsSub "entropy entropy" p = containsSub "entropy" p)
    ∧ ScienceAnalyzer.analyze_text "entropy entropy"
        = ScienceAnalyzer.analyze_text "entropy" :=
  ⟨by decide, C2_amended_presence_only "entropy entropy" "entropy" (by decide)⟩

/-- C3 counterexample: one successful `process_query` call on the freshly
initialized agent adds two nodes to `thought_graph` (the INPUT thought and
the OUTPUT thought), not exactly one. -/
theorem C3_counterexample :
    ((UniversalAgent.mkInit 0).process_query "hi" (Except.ok "hello world") 1 2).1.thought_visualizer.graphNodes.length
      = (UniversalAgent.mkInit 0).thought_visualizer.graphNodes.length + 2
    ∧ ¬ (((UniversalAgent.mkInit 0).process_query "hi" (Except.ok "hello world") 1 2).1.thought_visualizer.graphNodes.length
      = (UniversalAgent.mkInit 0).thought_visualizer.graphNodes.length + 1) := by
  exact ⟨by decide, by decide⟩

/-- C3 (amended): every successful call to `process_query` (the model call
returns a response and its analysis succeeds) adds exactly two nodes to
`thought_graph` — the INPUT thought and the OUTPUT thought — provided the
two `time.time()` timestamps are fresh and distinct. -/
theorem C3_amended_two_nodes (a : UniversalAgent) (query resp : String)
    (an : Analysis) (t1 t2 : ℚ)
    (h1 : ∀ p ∈ a.thought_visualizer.graphNodes, p.1 ≠ t1)
    (h2 : ∀ p ∈ a.thought_visualizer.graphNodes, p.1 ≠ t2)
    (h12 : t1 ≠ t2)
    (hok : UniversalAgent.analyze_response resp = Except.ok an) :
    (a.process_query query (Except.ok resp) t1 t2).1.thought_visualizer.graphNodes.length
      = a.thought_visualizer.graphNodes.length + 2 := by
  have hn1 : (a.thought_visualizer.add_thought ("Query received: " ++ query) "INPUT" t1).graphNodes
      = a.thought_visualizer.graphNodes
        ++ [(t1, { thought := "Query received: " ++ query, category := "INPUT",
                   response_time := none })] := by
    rw [add_thought_graphNodes, addNodeAssoc_fresh _ _ _ h1]
  have h2b : ∀ p ∈ (a.thought_visualizer.add_thought
      ("Query received: " ++ query) "INPUT" t1).graphNodes, p.1 ≠ t2 := by
    rw [hn1]
    intro p hp
    rcases List.mem_append.mp hp with hold | hnew
    · exact h2 p hold
    · simp only [List.mem_singleton] at hnew
      rw [hnew]
      exact h12
  simp only [UniversalAgent.process_query]
  rw [hok]
  dsimp only
  rw [add_thought_graphNodes, addNodeAssoc_length_fresh _ _ _ h2b,
    add_thought_graphNodes, addNodeAssoc_length_fresh _ _ _ h1]

/-- Witness for the amended C3 at a concrete successful call. -/
theorem C3_witness :
    (∀ p ∈ (UniversalAgent.mkInit 0).thought_visualizer.graphNodes, p.1 ≠ (1 : ℚ))
    ∧ (∀ p ∈ (UniversalAgent.mkInit 0).thought_visualizer.graphNodes, p.1 ≠ (2 : ℚ))
    ∧ ((1 : ℚ) ≠ 2)
    ∧ UniversalAgent.analyze_response "hello world"
        = Except.ok { science_scores := [("quantum", 0), ("thermo", 0), ("relativity", 0), ("biology", 0)],
                      complexity := 1 }
    ∧ ((UniversalAgent.mkInit 0).process_query "hey" (Except.ok "hello world") 1 2).1.thought_visualizer.graphNodes.length
        = (UniversalAgent.mkInit 0).thought_visualizer.graphNodes.length + 2 := by
  refine ⟨by decide, by decide, by norm_num, ?_, ?_⟩
  · simp +decide [UniversalAgent.analyze_response, ScienceAnalyzer.analyze_text,
      ScienceAnalyzer.principles, splitWs, splitWsGo]
  · exact C3_amended_two_nodes (UniversalAgent.mkInit 0) "hey" "hello world"
      { science_scores := [("quantum", 0), ("thermo", 0), ("relativity", 0), ("biology", 0)],
        complexity := 1 } 1 2 (by decide) (by decide) (by norm_num)
      (by simp +decide [UniversalAgent.analyze_response, ScienceAnalyzer.analyze_text,
        ScienceAnalyzer.principles, splitWs, splitWsGo])

theorem consecPairs_lt {l : List ℚ} (hp : l.Pairwise (fun a b => a < b)) :
    ∀ e ∈ consecPairs l, e.1 < e.2 := by
  induction l with
  | nil => simp [consecPairs]
  | cons x l ih =>
    cases l with
    | nil => simp [consecPairs]
    | cons y t =>
      intro e he
      rw [consecPairs_cons_cons] at he
      rcases List.mem_cons.mp he with rfl | hm
      · exact (List.pairwise_cons.mp hp).1 y (by simp)
      · exact ih (List.pairwise_cons.mp hp).2 e hm

/-- C4: for every sequence of `add_thought` calls on a fresh visualizer in
which each call's timestamp is strictly greater than the previous call's,
the resulting `thought_graph` is a linked-list-shaped chain: its edge list
is exactly the consecutive-insertion pairs, every node has at most one
outgoing and at most one incoming edge, every edge goes from an earlier
timestamp to the next-inserted one (so from smaller to larger timestamp),
and there is no directed cycle and no branching. -/
theorem C4_chain_shape (ins : List Insertion)
    (h : List.Chain' (fun a b => a < b) (ins.map Insertion.timestamp)) :
    (runAdds ins).graphEdges = consecPairs (ins.map Insertion.timestamp)
    ∧ (∀ u, ((runAdds ins).graphEdges.filter (fun e => decide (e.1 = u))).length ≤ 1)
    ∧ (∀ v, ((runAdds ins).graphEdges.filter (fun e => decide (e.2 = v))).length ≤ 1)
    ∧ (∀ e ∈ (runAdds ins).graphEdges, e.1 < e.2)
    ∧ (∀ u, ¬ EdgePath (runAdds ins).graphEdges u u) := by
  have hp : (ins.map Insertion.timestamp).Pairwise (fun a b => a < b) :=
    List.chain'_iff_pairwise.mp h
  obtain ⟨hn, he, hq⟩ := runAdds_spec ins hp
  have hnd : (ins.map Insertion.timestamp).Nodup := nodup_of_pairwise_lt hp
  have hedge_lt : ∀ e ∈ (runAdds ins).graphEdges, e.1 < e.2 := by
    intro e hme
    rw [he] at hme
    exact consecPairs_lt hp e hme
  refine ⟨he, ?_, ?_, hedge_lt, ?_⟩
  · intro u
    rw [he, length_filter_fst, map_fst_consecPairs]
    exact length_filter_le_one_of_nodup
      (List.Nodup.sublist (List.dropLast_sublist _) hnd) u
  · intro v
    rw [he, length_filter_snd, map_snd_consecPairs]
    exact length_filter_le_one_of_nodup
      (List.Nodup.sublist (List.tail_sublist _) hnd) v
  · intro u hpath
    exact lt_irrefl u (edgePath_lt hedge_lt hpath)

/-- Witness for C4 on a concrete three-insertion sequence. -/
theorem C4_witness :
    List.Chain' (fun a b => a < b) (sampleInsertions.map Insertion.timestamp)
    ∧ ((runAdds sampleInsertions).graphEdges
        = consecPairs (sampleInsertions.map Insertion.timestamp)
      ∧ (∀ u, ((runAdds sampleInsertions).graphEdges.filter
          (fun e => decide (e.1 = u))).length ≤ 1)
      ∧ (∀ v, ((runAdds sampleInsertions).graphEdges.filter
          (fun e => decide (e.2 = v))).length ≤ 1)
      ∧ (∀ e ∈ (runAdds sampleInsertions).graphEdges, e.1 < e.2)
      ∧ (∀ u, ¬ EdgePath (runAdds sampleInsertions).graphEdges u u)) :=
  ⟨List.chain'_iff_pairwise.mpr (by decide),
    C4_chain_shape sampleInsertions (List.chain'_iff_pairwise.mpr (by decide))⟩

/-- C5: after any strictly-increasing sequence of `add_thought` calls on a
fresh visualizer, `generate_visualization` returns the fixed string
`No thoughts processed yet.` on the empty state, and otherwise the
`[category] thought` lines of the queued (most recent, retained) nodes in
insertion order, joined by the arrow separator. -/
theorem C5_visualization_order (ins : List Insertion)
    (h : List.Chain' (fun a b => a < b) (ins.map Insertion.timestamp)) :
    (ins = [] → (runAdds ins).generate_visualization
        = some "No thoughts processed yet.")
    ∧ (ins ≠ [] → (runAdds ins).generate_visualization
        = some (String.intercalate "\n└─> "
            ((takeLast 10 ins).map (fun i => "[" ++ i.category ++ "] " ++ i.thought)))) := by
  constructor
  · rintro rfl
    rfl
  · intro hne
    exact generate_visualization_of_runAdds ins (List.chain'_iff_pairwise.mp h) hne

/-- Witness for C5 on a concrete three-insertion sequence. -/
theorem C5_witness :
    List.Chain' (fun a b => a < b) (sampleInsertions.map Insertion.timestamp)
    ∧ sampleInsertions ≠ []
    ∧ (runAdds sampleInsertions).generate_visualization
        = some (String.intercalate "\n└─> "
            ((takeLast 10 sampleInsertions).map
              (fun i => "[" ++ i.category ++ "] " ++ i.thought))) :=
  ⟨List.chain'_iff_pairwise.mpr (by decide), by decide,
    (C5_visualization_order sampleInsertions
      (List.chain'_iff_pairwise.mpr (by decide))).2 (by decide)⟩

/-- C6: `process_query` is a blanket catch-and-print: if the model call
raises, or the analysis of the response raises, the returned string is
`Error in processing: ` followed by the exception message; otherwise the
returned string is the model response text. -/
theorem C6_blanket_catch (a : UniversalAgent) (query : String)
    (modelResult : Except String String) (t1 t2 : ℚ) :
    (∀ e, modelResult = Except.error e →
        (a.process_query query modelResult t1 t2).2 = "Error in processing: " ++ e)
    ∧ (∀ resp e, modelResult = Except.ok resp →
        UniversalAgent.analyze_response resp = Except.error e →
        (a.process_query query modelResult t1 t2).2 = "Error in processing: " ++ e)
    ∧ (∀ resp an, modelResult = Except.ok resp →
        UniversalAgent.analyze_response resp = Except.ok an →
        (a.process_query query modelResult t1 t2).2 = resp) := by
  refine ⟨?_, ?_, ?_⟩
  · rintro e rfl
    rfl
  · rintro resp e rfl hae
    simp only [UniversalAgent.process_query]
    rw [hae]
  · rintro resp an rfl hae
    simp only [UniversalAgent.process_query]
    rw [hae]

/-- Witness for C6: a failing model call yields the error string. -/
theorem C6_witness :
    ((Except.error "boom" : Except String String) = Except.error "boom")
    ∧ ((UniversalAgent.mkInit 0).process_query "q" (Except.error "boom") 1 2).2
        = "Error in processing: " ++ "boom" :=
  ⟨rfl, (C6_blanket_catch (UniversalAgent.mkInit 0) "q" (Except.error "boom") 1 2).1
    "boom" rfl⟩

/-- C7: the `ThreadPoolExecutor` is created by `__init__` with
`max_workers=3` and no submitted work, and no operation ever submits to or
replaces it: `process_query` leaves the `executor` field unchanged for
every input. -/
theorem C7_executor_unused (a : UniversalAgent) (query : String)
    (modelResult : Except String String) (t1 t2 t0 : ℚ) :
    (a.process_query query modelResult t1 t2).1.executor = a.executor
    ∧ (UniversalAgent.mkInit t0).executor
        = { max_workers := 3, tasks_submitted := 0 } := by
  constructor
  · rcases modelResult with e | resp
    · rfl
    · rcases hae : UniversalAgent.analyze_response resp with e | an <;>
        (simp only [UniversalAgent.process_query]; rw [hae])
  · rfl

/-- C8: if the model response contains no whitespace-separated words
(equivalently, every character of it is whitespace), the complexity
computation in `_analyze_response` divides by zero and raises, so
`process_query` returns the error string instead of the response text; for
every response with at least one word the division is safe, the complexity
equals the number of distinct words divided by the total number of words,
and `process_query` returns the response text. -/
theorem C8_complexity_division (resp : String) :
    (splitWs resp.data = [] ↔ ∀ c ∈ resp.data, c.isWhitespace)
    ∧ (splitWs resp.data = [] →
        UniversalAgent.analyze_response resp = Except.error "division by zero"
        ∧ ∀ (a : UniversalAgent) (query : String) (t1 t2 : ℚ),
            (a.process_query query (Except.ok resp) t1 t2).2
              = "Error in processing: " ++ "division by zero")
    ∧ (splitWs resp.data ≠ [] →
        UniversalAgent.analyze_response resp
          = Except.ok { science_scores := ScienceAnalyzer.analyze_text resp,
                        complexity := (((splitWs resp.data).dedup.length : ℚ)
                          / ((splitWs resp.data).length : ℚ)) }
        ∧ ∀ (a : UniversalAgent) (query : String) (t1 t2 : ℚ),
            (a.process_query query (Except.ok resp) t1 t2).2 = resp) := by
  refine ⟨splitWs_eq_nil_iff resp.data, ?_, ?_⟩
  · intro hnil
    have hresp : UniversalAgent.analyze_response resp
        = Except.error "division by zero" := by
      simp [UniversalAgent.analyze_response, hnil]
    refine ⟨hresp, ?_⟩
    intro a query t1 t2
    simp only [UniversalAgent.process_query]
    rw [hresp]
  · intro hne
    have hlen : ¬ ((splitWs resp.data).length = 0) := by
      simpa [List.length_eq_zero] using hne
    have hresp : UniversalAgent.analyze_response resp
        = Except.ok { science_scores := ScienceAnalyzer.analyze_text resp,
                      complexity := (((splitWs resp.data).dedup.length : ℚ)
                        / ((splitWs resp.data).length : ℚ)) } := by
      simp [UniversalAgent.analyze_response, hlen]
    refine ⟨hresp, ?_⟩
    intro a query t1 t2
    simp only [UniversalAgent.process_query]
    rw [hresp]

/-- Witness for C8: the empty response text triggers the division-by-zero
error path of `process_query`. -/
theorem C8_witness :
    splitWs "".data = []
    ∧ UniversalAgent.analyze_response "" = Except.error "division by zero"
    ∧ ((UniversalAgent.mkInit 0).process_query "hello?" (Except.ok "") 1 2).2
        = "Error in processing: " ++ "division by zero" := by
  refine ⟨by decide, ?_, ?_⟩
  · exact ((C8_complexity_division "").2.1 (by decide)).1
  · exact ((C8_complexity_division "").2.1 (by decide)).2
      (UniversalAgent.mkInit 0) "hello?" 1 2

/-- C9: after `n` `add_thought` calls with strictly increasing timestamps
on a fresh visualizer, `thought_queue` holds exactly `min n 10` entries —
the most recently added, in insertion order — while `thought_graph` holds
all `n` nodes; for `n > 10` the visualization shows only the ten most
recent thoughts even though the graph retains every node. -/
theorem C9_queue_bounded_graph_unbounded (ins : List Insertion)
    (h : List.Chain' (fun a b => a < b) (ins.map Insertion.timestamp)) :
    (runAdds ins).thought_queue.length = min ins.length 10
    ∧ (runAdds ins).thought_queue = takeLast 10 (ins.map Insertion.timestamp)
    ∧ (runAdds ins).graphNodes.length = ins.length
    ∧ (10 < ins.length →
        (runAdds ins).generate_visualization
          = some (String.intercalate "\n└─> "
              ((takeLast 10 ins).map (fun i => "[" ++ i.category ++ "] " ++ i.thought)))
        ∧ (takeLast 10 ins).length = 10) := by
  have hp := List.chain'_iff_pairwise.mp h
  obtain ⟨hn, he, hq⟩ := runAdds_spec ins hp
  refine ⟨?_, hq, ?_, ?_⟩
  · rw [hq, takeLast_length, List.length_map]
  · rw [hn, List.length_map]
  · intro h10
    constructor
    · refine generate_visualization_of_runAdds ins hp ?_
      intro hc
      rw [hc] at h10
      simp at h10
    · rw [takeLast_length]
      omega

/-- Witness for C9 on a concrete twelve-insertion sequence. -/
theorem C9_witness :
    List.Chain' (fun a b => a < b) (sampleInsertions12.map Insertion.timestamp)
    ∧ ((runAdds sampleInsertions12).thought_queue.length
          = min sampleInsertions12.length 10
      ∧ (runAdds sampleInsertions12).thought_queue
          = takeLast 10 (sampleInsertions12.map Insertion.timestamp)
      ∧ (runAdds sampleInsertions12).graphNodes.length = sampleInsertions12.length
      ∧ (10 < sampleInsertions12.length →
          (runAdds sampleInsertions12).generate_visualization
            = some (String.intercalate "\n└─> "
                ((takeLast 10 sampleInsertions12).map
                  (fun i => "[" ++ i.category ++ "] " ++ i.thought)))
          ∧ (takeLast 10 sampleInsertions12).length = 10)) :=
  ⟨List.chain'_iff_pairwise.mpr (by decide),
    C9_queue_bounded_graph_unbounded sampleInsertions12
      (List.chain'_iff_pairwise.mpr (by decide))⟩

/-- C10: `add_thought` stores only the `thought` and `category` attributes,
so in every reachable agent state the collection of `response_time` values
that `_display_session_stats` averages is empty, and the reported
`Total Queries` equals the length of `thought_queue`, which counts SYSTEM
and OUTPUT thoughts as well as queries. -/
theorem C10_stats_empty_collection (ins : List Insertion) (rh : List String)
    (ex : ExecutorState) :
    (UniversalAgent.display_session_stats
        { thought_visualizer := runAdds ins, response_history := rh,
          executor := ex }).responseTimes = []
    ∧ (UniversalAgent.display_session_stats
        { thought_visualizer := runAdds ins, response_history := rh,
          executor := ex }).totalQueries
      = (runAdds ins).thought_queue.length := by
  constructor
  · exact filterMap_rt_eq_nil (runAdds_rt_none ins)
  · rfl
